import Mathlib

/-!
# Verification of the jarvis page-section editing engine

Shallow embedding of the pure document-transformation core of
`src/jarvis/confluence.py`, `src/jarvis/models.py` and
`src/jarvis/conversation.py`.  Documents are lists of characters; the
Python `re` searches used by the code are embedded as deterministic
scanners whose semantics coincide with the specific patterns the code
compiles (leftmost match, lazy/greedy repetition, `IGNORECASE`,
`DOTALL` where the code passes it).  Derivations of determinism for
each pattern are recorded at the corresponding definition.
-/

namespace Jarvis

set_option maxRecDepth 100000

/-- Case-insensitive character comparison, modelling Python
`re.IGNORECASE` on the ASCII text these patterns use. -/
def eqCI (a b : Char) : Bool := a.toLower == b.toLower

/-- `isPrefixCI pat s` : the literal `pat` matches at the head of `s`
case-insensitively (a `re.escape`d literal under `re.IGNORECASE`). -/
def isPrefixCI : List Char → List Char → Bool
  | [], _ => true
  | _ :: _, [] => false
  | p :: ps, c :: cs => eqCI p c && isPrefixCI ps cs

/-- Index of the first case-insensitive occurrence of `pat` in `s`
(first position where a lazy `.*?pat` with `DOTALL` would place `pat`). -/
def findCI (pat : List Char) : List Char → Option Nat
  | [] => if isPrefixCI pat [] then some 0 else none
  | c :: cs => if isPrefixCI pat (c :: cs) then some 0 else (findCI pat cs).map (· + 1)

/-- Index of the first occurrence of the single character `t`. -/
def charIdx (t : Char) : List Char → Option Nat
  | [] => none
  | c :: cs => if c == t then some 0 else (charIdx t cs).map (· + 1)

/-- Index of the first `'<'`, or the length of the list when there is
none: the number of characters a greedy `[^<]*` can consume. -/
def ltIdx : List Char → Nat
  | [] => 0
  | c :: cs => if c == '<' then 0 else ltIdx cs + 1

/-- The longest newline-free initial segment: the region a
non-`DOTALL` `.*?` can reach. -/
def truncAtNl (l : List Char) : List Char := l.takeWhile (fun c => !(c == '\n'))

/-- Number of (possibly overlapping) occurrences of `pat` as a
contiguous substring; used to state structural exactly-once facts. -/
def countSub (pat : List Char) : List Char → Nat
  | [] => if pat.isEmpty then 1 else 0
  | c :: cs => (if pat.isPrefixOf (c :: cs) then 1 else 0) + countSub pat cs

/-- Anchored match of the heading-open pattern `<h[dlo-dhi][^>]*>`:
`<` and (caseless) `h`, a level digit in the range, then — since the
greedy `[^>]*` cannot skip a `>` — everything up to the first `>`.
Returns the length of the matched open tag. -/
def matchOpenTag (dlo dhi : Char) (l : List Char) : Option Nat :=
  match l with
  | a :: b :: d :: rest =>
    if a == '<' && eqCI b 'h' && dlo ≤ d && d ≤ dhi then
      match charIdx '>' rest with
      | some k => some (k + 4)
      | none => none
    else none
  | _ => none

/-- Anchored match of the heading-close pattern `</h[dlo-dhi]>`
(caseless `h`, any digit in the range — the code never ties the close
digit to the open digit except in `extract_headings`). -/
def matchCloseTagB (dlo dhi : Char) (l : List Char) : Bool :=
  match l with
  | a :: b :: c :: d :: e :: _ =>
    a == '<' && b == '/' && eqCI c 'h' && dlo ≤ d && d ≤ dhi && e == '>'
  | _ => false

/-- Index of the first position where `</h[dlo-dhi]>` matches. -/
def findClose (dlo dhi : Char) : List Char → Option Nat
  | [] => none
  | c :: cs =>
    if matchCloseTagB dlo dhi (c :: cs) then some 0
    else (findClose dlo dhi cs).map (· + 1)

/-- Anchored close-tag match for `extract_headings`' back-reference
pattern `</h\1>`: the digit must equal the open digit `d`. -/
def matchCloseTagD (d : Char) (l : List Char) : Bool :=
  match l with
  | a :: b :: c :: e :: f :: _ =>
    a == '<' && b == '/' && eqCI c 'h' && e == d && f == '>'
  | _ => false

/-- Index of the first position where `</h\1>` (digit `d`) matches. -/
def findCloseD (d : Char) : List Char → Option Nat
  | [] => none
  | c :: cs =>
    if matchCloseTagD d (c :: cs) then some 0
    else (findCloseD d cs).map (· + 1)

/-- End offset chosen by a lazy `(.*?)` (with `DOTALL`) followed by the
lookahead `(?=<h[dlo-dhi]|$)`: the first position at which either
`<h[dlo-dhi]` starts, or Python's `$` holds — at the very end of the
string or just before a final newline. -/
def lookEnd (dlo dhi : Char) : List Char → Nat
  | [] => 0
  | ['\n'] => 0
  | a :: rest =>
    (match a :: rest with
     | a :: b :: d :: _ =>
       if a == '<' && eqCI b 'h' && dlo ≤ d && d ≤ dhi then 0 else lookEnd dlo dhi rest + 1
     | _ => lookEnd dlo dhi rest + 1)

/-- Generic leftmost search: Python's `re.search` tries an anchored
match at every position from the left (including the end-of-string
position) and stops at the first success.  Returns the start offset
together with the anchored result. -/
def searchAux (att : List Char → Option α) : List Char → Option (Nat × α)
  | [] =>
    match att [] with
    | some a => some (0, a)
    | none => none
  | c :: cs =>
    match att (c :: cs) with
    | some a => some (0, a)
    | none =>
      match searchAux att cs with
      | some (i, a) => some (i + 1, a)
      | none => none

/-! ## Anchored matchers for the specific patterns compiled by the code -/

/-- One backtracking step of `[^<]*T[^<]*</h[dlo-dhi]>` after an open
tag: the first `[^<]*` consumes exactly `j` characters (all of which
must differ from `<`), the literal `T` matches caselessly at offset
`j`, the second `[^<]*` then necessarily runs to the first `<`, where
the close tag must stand.  Returns the full group-1 length on success. -/
def headAtWith (dlo dhi : Char) (T cs : List Char) (j : Nat) : Option Nat :=
  match matchOpenTag dlo dhi cs with
  | none => none
  | some oe =>
    let r := cs.drop oe
    if ((r.take j).contains '<') then none
    else if isPrefixCI T (r.drop j) then
      let c := ltIdx (r.drop (j + T.length))
      if matchCloseTagB dlo dhi ((r.drop (j + T.length)).drop c) then
        some (oe + j + T.length + c + 5)
      else none
    else none

/-- Greedy backtracking over the first `[^<]*`: Python tries the
longest consumption first and steps down. -/
def tryDown (dlo dhi : Char) (T cs : List Char) : Nat → Option Nat
  | 0 => headAtWith dlo dhi T cs 0
  | j + 1 =>
    match headAtWith dlo dhi T cs (j + 1) with
    | some g => some g
    | none => tryDown dlo dhi T cs j

/-- Anchored match of `(<h[dlo-dhi][^>]*>[^<]*T[^<]*</h[dlo-dhi]>)`
(the configured-variant heading pattern); returns the group-1 length.
The first `[^<]*` can consume at most up to the first `<` after the
open tag, so the greedy scan starts there. -/
def attemptCfgHead (dlo dhi : Char) (T cs : List Char) : Option Nat :=
  match matchOpenTag dlo dhi cs with
  | none => none
  | some oe => tryDown dlo dhi T cs (ltIdx (cs.drop oe))

/-- Anchored match of the configured project pattern
`(<h[2-4][^>]*>[^<]*T[^<]*</h[2-4]>)(.*?)(?=<h[1-4]|$)` with
`IGNORECASE|DOTALL`; returns (group-1 length, whole-match length).
The trailing `(.*?)(?=...)` always succeeds, so it never forces
backtracking into group 1. -/
def attemptCfgProj (T cs : List Char) : Option (Nat × Nat) :=
  match attemptCfgHead '2' '4' T cs with
  | none => none
  | some g1 => some (g1, g1 + lookEnd '1' '4' (cs.drop g1))

/-- Anchored match of the default project pattern
`(<h[2-3][^>]*>.*?T.*?</h[2-3]>)(.*?)(?=<h[1-3]|$)` with
`IGNORECASE|DOTALL`.  The lazy `.*?T` places `T` at its first
occurrence after the open tag (if the first occurrence has no close
tag after it, no later one does either, so no backtracking arises),
and `.*?</h[2-3]>` then stops at the first close tag. -/
def attemptProjDefault (T cs : List Char) : Option (Nat × Nat) :=
  match matchOpenTag '2' '3' cs with
  | none => none
  | some oe =>
    match findCI T (cs.drop oe) with
    | none => none
    | some p =>
      match findClose '2' '3' ((cs.drop oe).drop (p + T.length)) with
      | none => none
      | some k =>
        let g1 := oe + p + T.length + k + 5
        some (g1, g1 + lookEnd '1' '3' (cs.drop g1))

/-- Anchored match of `(<h[lo-hi][^>]*>.*?W.*?</h[lo-hi]>)` with
`IGNORECASE` but *without* `DOTALL` (the default journal pattern with
`W = "Journal"`, and the `Projects` fallback with levels 1–2): both
lazy `.*?` are confined to the current line.  A literal `W` without a
newline that is reachable without crossing a newline lies entirely in
the newline-truncated region, and if the close tag fails for the first
such occurrence it fails for every later one, so the first occurrence
is the one Python commits to.  Returns the whole-match length. -/
def attemptLineHead (dlo dhi : Char) (W cs : List Char) : Option Nat :=
  match matchOpenTag dlo dhi cs with
  | none => none
  | some oe =>
    match findCI W (truncAtNl (cs.drop oe)) with
    | none => none
    | some p =>
      match findClose dlo dhi (truncAtNl ((cs.drop oe).drop (p + W.length))) with
      | none => none
      | some k => some (oe + p + W.length + k + 5)

/-! ## The leftmost searches used by `confluence.py` -/

/-- `re.search(r"(<h[1-3][^>]*>.*?Journal.*?</h[1-3]>)", content, re.IGNORECASE)`
of `prepend_journal_entry`; returns `match.end()`. -/
def searchJournalDefault (D : List Char) : Option Nat :=
  (searchAux (attemptLineHead '1' '3' ("Journal".data)) D).map (fun r => r.1 + r.2)

/-- `re.search(r"(<h[1-2][^>]*>.*?Projects.*?</h[1-2]>)", content, re.IGNORECASE)`
of `update_or_create_project`'s creation branch; returns `match.end()`. -/
def searchProjectsHeading (D : List Char) : Option Nat :=
  (searchAux (attemptLineHead '1' '2' ("Projects".data)) D).map (fun r => r.1 + r.2)

/-- `re.search(rf"(<h[1-6][^>]*>[^<]*{L}[^<]*</h[1-6]>)", content, re.IGNORECASE)`
of `prepend_journal_entry_configured` (`L` escaped); returns `match.end()`. -/
def searchJournalCfg (L D : List Char) : Option Nat :=
  (searchAux (attemptCfgHead '1' '6' L) D).map (fun r => r.1 + r.2)

/-- `re.search(rf"(<h[1-3][^>]*>[^<]*{L}[^<]*</h[1-3]>)", content, re.IGNORECASE)`
used for each candidate project heading; returns `match.end()`. -/
def searchCandidate (L D : List Char) : Option Nat :=
  (searchAux (attemptCfgHead '1' '3' L) D).map (fun r => r.1 + r.2)

/-- The default project search of `update_or_create_project`; returns
`(match.start(), end of group 1, match.end())`. -/
def searchProjDefault (T D : List Char) : Option (Nat × Nat × Nat) :=
  match searchAux (attemptProjDefault T) D with
  | some (i, (g1, m)) => some (i, i + g1, i + m)
  | none => none

/-- The configured project search of `update_or_create_project_configured`;
returns `(match.start(), end of group 1, match.end())`. -/
def searchCfgProj (T D : List Char) : Option (Nat × Nat × Nat) :=
  match searchAux (attemptCfgProj T) D with
  | some (i, (g1, m)) => some (i, i + g1, i + m)
  | none => none

/-- Scan of the configured candidate labels: first label whose heading
search succeeds wins (`insert_pos` is a match end, hence never `0`, so
Python's `if insert_pos:` is an is-some test). -/
def firstCandidatePos (labels : List (List Char)) (D : List Char) : Option Nat :=
  match labels with
  | [] => none
  | l :: ls =>
    match searchCandidate l D with
    | some e => some e
    | none => firstCandidatePos ls D

/-! ## The pure document transformations

Each `..._body` is the content transformation a `ConfluenceClient`
method performs between fetching `content` and writing `new_content`
back; rendered fragments are passed in already rendered, exactly as
the methods compute them before splicing. -/

/-- `prepend_journal_entry`: splice `"\n" + entry_html` at the end of
the matched journal heading, else prepend the entry to the document. -/
def prepend_journal_entry_body (content entry_html : List Char) : List Char :=
  match searchJournalDefault content with
  | some e => content.take e ++ ("\n".data ++ (entry_html ++ content.drop e))
  | none => entry_html ++ content

/-- `prepend_journal_entry_configured`: same splice, with the heading
located by the configured label. -/
def prepend_journal_entry_configured_body (content entry_html journal_heading : List Char) :
    List Char :=
  match searchJournalCfg journal_heading content with
  | some e => content.take e ++ ("\n".data ++ (entry_html ++ content.drop e))
  | none => entry_html ++ content

/-- `update_or_create_project`: replace the matched span keeping group 1,
else insert a new `<h3>` subsection under a `Projects` heading, else
append a new `<h2>` section at the end. -/
def update_or_create_project_body (content title project_html : List Char) : List Char :=
  match searchProjDefault title content with
  | some (s, g1e, e) =>
    content.take s ++ ((content.drop s).take (g1e - s) ++
      ("\n".data ++ (project_html ++ content.drop e)))
  | none =>
    match searchProjectsHeading content with
    | some ip =>
      content.take ip ++ ("\n<h3>".data ++ (title ++ ("</h3>\n".data ++
        (project_html ++ content.drop ip))))
    | none => content ++ ("\n<h2>".data ++ (title ++ ("</h2>\n".data ++ project_html)))

/-- `update_or_create_project_configured`: replace the matched span
keeping group 1, else insert under the first matching candidate
heading, else append at the end. -/
def update_or_create_project_configured_body
    (content title project_html : List Char) (project_headings : List (List Char)) :
    List Char :=
  match searchCfgProj title content with
  | some (s, g1e, e) =>
    content.take s ++ ((content.drop s).take (g1e - s) ++
      ("\n".data ++ (project_html ++ content.drop e)))
  | none =>
    match firstCandidatePos project_headings content with
    | some ip =>
      content.take ip ++ ("\n<h3>".data ++ (title ++ ("</h3>\n".data ++
        (project_html ++ content.drop ip))))
    | none => content ++ ("\n<h2>".data ++ (title ++ ("</h2>\n".data ++ project_html)))

/-! ## Data model and rendering (`models.py`) -/

/-- `ProjectClassification` of `models.py`. -/
inductive ProjectClassification where
  | MOONSHOT
  | CORE
  | EXPLORATORY
  | MAINTENANCE
deriving DecidableEq, Repr

/-- The `value` string of each enum member. -/
def classificationValue : ProjectClassification → List Char
  | .MOONSHOT => "Moonshot".data
  | .CORE => "Core".data
  | .EXPLORATORY => "Exploratory".data
  | .MAINTENANCE => "Maintenance".data

/-- `ProjectClassification(s)`: the enum constructor succeeds only on
one of the four exact value strings and raises `ValueError` otherwise. -/
def classificationOfString (s : List Char) : Option ProjectClassification :=
  if s = "Moonshot".data then some .MOONSHOT
  else if s = "Core".data then some .CORE
  else if s = "Exploratory".data then some .EXPLORATORY
  else if s = "Maintenance".data then some .MAINTENANCE
  else none

/-- The classification logic of `JarvisConversation._parse_project`:
`data.get("classification", "Exploratory")` (`none` = key absent),
then `try: ProjectClassification(·) except ValueError: EXPLORATORY`. -/
def parse_project_classification (field : Option (List Char)) : ProjectClassification :=
  let s := field.getD ("Exploratory".data)
  (classificationOfString s).getD .EXPLORATORY

/-- `Project` of `models.py` (free-text fields as character lists;
`none` models Python `None`). -/
structure Project where
  title : List Char
  classification : ProjectClassification
  status : List Char
  next_steps : List Char
  executive_summary : List Char
  prototypes : Option (List Char)
  supporting_work : Option (List Char)
  image_url : Option (List Char)

/-- The optional image block (note: no trailing newline in the source). -/
def imageBlockHtml (u : List Char) : List Char :=
  "<ac:image><ri:url ri:value=\"".data ++ u ++ "\" /></ac:image>".data

/-- The status block (ends with a newline in the source f-string). -/
def statusBlockHtml (p : Project) : List Char :=
  "<p><strong>Classification:</strong> ".data ++ classificationValue p.classification ++
    "<br />\n<strong>Status:</strong> ".data ++ p.status ++
    "<br />\n<strong>Next Steps:</strong> ".data ++ p.next_steps ++ "</p>\n".data

/-- The Executive Summary block (ends with a newline). -/
def execBlockHtml (p : Project) : List Char :=
  "<h4>Executive Summary</h4>\n<p>".data ++ p.executive_summary ++ "</p>\n".data

/-- The optional Prototypes block (ends with a newline). -/
def protoBlockHtml (t : List Char) : List Char :=
  "<h4>Prototypes</h4>\n<p>".data ++ t ++ "</p>\n".data

/-- The optional Supporting-Work block (ends with a newline). -/
def suppBlockHtml (t : List Char) : List Char :=
  "<h4>Simulation, White Paper, and Supporting Work Products</h4>\n<p>".data ++
    t ++ "</p>\n".data

/-- `Project.to_confluence_html`: the present blocks joined by
`"\n".join(parts)`.  Python truthiness: an optional field that is
`None` *or the empty string* contributes no block. -/
def Project.to_confluence_html (p : Project) : List Char :=
  List.intercalate ("\n".data)
    ((match p.image_url with
      | some u => if u.isEmpty then [] else [imageBlockHtml u]
      | none => []) ++
     ([statusBlockHtml p] ++ ([execBlockHtml p] ++
      ((match p.prototypes with
        | some t => if t.isEmpty then [] else [protoBlockHtml t]
        | none => []) ++
       (match p.supporting_work with
        | some t => if t.isEmpty then [] else [suppBlockHtml t]
        | none => [])))))

/-- `JournalEntry.to_confluence_html` with the timestamp already
formatted (`datetime.strftime` is wall-clock, outside the embedding). -/
def journalEntryHtml (date_str summary : List Char) : List Char :=
  "<h3>".data ++ date_str ++ "</h3>\n<p>".data ++ summary ++ "</p>\n".data

/-! ## Heading enumeration (`list_existing_projects`, `extract_headings`) -/

/-- `re.sub(r"<[^>]+>", "", s)`: leftmost non-overlapping removal of
`<`, one or more non-`>` characters, `>`; a bare `<>` does not match
and its `<` is kept.  The fuel argument (initialised to the length,
which every step strictly decreases below) only drives termination. -/
def stripTagsAux : Nat → List Char → List Char
  | 0, l => l
  | _ + 1, [] => []
  | fuel + 1, c :: cs =>
    if c == '<' then
      match charIdx '>' cs with
      | some k => if 1 ≤ k then stripTagsAux fuel (cs.drop (k + 1)) else c :: stripTagsAux fuel cs
      | none => c :: stripTagsAux fuel cs
    else c :: stripTagsAux fuel cs

/-- `re.sub(r"<[^>]+>", "", s)`. -/
def stripTags (l : List Char) : List Char := stripTagsAux l.length l

/-- Python `str.strip()` whitespace (ASCII part; the documents at hand
contain no exotic Unicode spacing). -/
def isWs (c : Char) : Bool :=
  c == ' ' || c == '\t' || c == '\n' || c == '\r' || c == '\x0b' || c == '\x0c'

/-- Python `str.strip()`. -/
def trimWs (l : List Char) : List Char :=
  ((l.dropWhile isWs).reverse.dropWhile isWs).reverse

/-- Lowercasing for the stop-list comparison (`clean.lower()`). -/
def lowerL (l : List Char) : List Char := l.map Char.toLower

/-- Anchored match of `<h[2-3][^>]*>(.*?)</h[2-3]>` without `DOTALL`:
the lazy group runs to the first close tag on the same line.  Returns
(group text, whole-match length). -/
def attemptFindH23 (cs : List Char) : Option (List Char × Nat) :=
  match matchOpenTag '2' '3' cs with
  | none => none
  | some oe =>
    match findClose '2' '3' (truncAtNl (cs.drop oe)) with
    | none => none
    | some k => some ((cs.drop oe).take k, oe + k + 5)

/-- `re.findall` driver: leftmost matches, scanning resumes after each
match (every match here spans at least one character, so consuming
`max mlen 1` characters is exact); fuel is the remaining length. -/
def findallH23Aux : Nat → List Char → List (List Char)
  | 0, _ => []
  | _ + 1, [] => []
  | fuel + 1, c :: cs =>
    match attemptFindH23 (c :: cs) with
    | some (g, mlen) => g :: findallH23Aux fuel ((c :: cs).drop (max mlen 1))
    | none => findallH23Aux fuel cs

/-- `re.findall(r"<h[2-3][^>]*>(.*?)</h[2-3]>", content, re.IGNORECASE)`. -/
def findallH23 (D : List Char) : List (List Char) := findallH23Aux D.length D

/-- The heading stop-list of `list_existing_projects`. -/
def excludedHeadings : List (List Char) :=
  ["journal".data, "projects".data, "executive summary".data, "prototypes".data,
   "simulation, white paper, and supporting work products".data]

/-- `list_existing_projects` on a page body: the accumulation loop over
the `findall` matches, appending each cleaned text not on the stop-list. -/
def list_existing_projects_body (content : List Char) : List (List Char) :=
  (findallH23 content).foldl
    (fun acc m =>
      let clean := trimWs (stripTags m)
      if excludedHeadings.contains (lowerL clean) then acc else acc ++ [clean])
    []

/-- Anchored match of `<h([1-6])[^>]*>(.*?)</h\1>` with
`IGNORECASE|DOTALL` (`extract_headings`): the close digit is tied to
the open digit by the back-reference, and the lazy group may cross
newlines.  Returns (level digit, group text, whole-match length). -/
def attemptExtract (cs : List Char) : Option (Char × List Char × Nat) :=
  match cs with
  | a :: b :: d :: rest =>
    if a == '<' && eqCI b 'h' && '1' ≤ d && d ≤ '6' then
      match charIdx '>' rest with
      | none => none
      | some k =>
        match findCloseD d ((a :: b :: d :: rest).drop (k + 4)) with
        | none => none
        | some j => some (d, ((a :: b :: d :: rest).drop (k + 4)).take j, k + 4 + j + 5)
    else none
  | _ => none

/-- `re.findall` driver for `extract_headings`. -/
def findallExtractAux : Nat → List Char → List (Char × List Char)
  | 0, _ => []
  | _ + 1, [] => []
  | fuel + 1, c :: cs =>
    match attemptExtract (c :: cs) with
    | some (d, g, mlen) => (d, g) :: findallExtractAux fuel ((c :: cs).drop (max mlen 1))
    | none => findallExtractAux fuel cs

/-- `extract_headings` on a page body: headings with tag-stripped,
trimmed text, empty texts dropped, the digit converted with `int`. -/
def extract_headings_body (content : List Char) : List (Nat × List Char) :=
  (findallExtractAux content.length content).foldl
    (fun acc m =>
      let clean := trimWs (stripTags m.2)
      if clean.isEmpty then acc else acc ++ [(m.1.toNat - 48, clean)])
    []

/-- The heading-scoped matching property the configured patterns
guarantee at a match: some backtracking offset `j` inside the heading's
`<`-free inner text carries the title. -/
def cfgHeadingMatchAt (dlo dhi : Char) (T D : List Char) (s glen : Nat) : Prop :=
  ∃ j, headAtWith dlo dhi T (D.drop s) j = some glen

/-- Case-insensitive substring containment. -/
def containsCI (pat s : List Char) : Bool := (findCI pat s).isSome

/-! ## Concrete values used to instantiate the properties -/

/-- A minimal project titled `T` with only the required fields. -/
def projT : Project :=
  ⟨"T".data, .EXPLORATORY, "s".data, "n".data, "e".data, none, none, none⟩

/-- A project titled `Widget` with only the required fields. -/
def projWidget : Project :=
  ⟨"Widget".data, .EXPLORATORY, "ws".data, "wn".data, "we".data, none, none, none⟩

/-- A project titled `Apollo` with only the required fields. -/
def projApollo : Project :=
  ⟨"Apollo".data, .CORE, "as".data, "an".data, "ae".data, none, none, none⟩

/-- A project with an image URL and no optional text blocks. -/
def projImg : Project :=
  ⟨"P".data, .EXPLORATORY, "s".data, "n".data, "e".data, none, none, some ("u".data)⟩

/-- Document whose only occurrence of `T` lies inside a paragraph body. -/
def docBodyTitle : List Char := "<h2>Foo</h2><p>T</p><h2>Bar</h2><p>z</p>".data

/-- Document whose first heading carries the target label only across
inner markup, followed by a markup-free heading containing it. -/
def docMarkedUp : List Char :=
  "<h2><em>MOONBASE</em> Alpha</h2><h2>x moonbase alpha y</h2>".data

/-- The sibling-preservation scenario document. -/
def docApollo : List Char :=
  "<h2>Apollo</h2><p>old status</p><h2>Other</h2><p>untouched</p>".data

/-! ## Soundness lemmas for the scanners -/

theorem searchAux_sound {α : Type} {att : List Char → Option α} :
    ∀ {s : List Char} {i : Nat} {a : α}, searchAux att s = some (i, a) →
      att (s.drop i) = some a ∧ ∀ j, j < i → att (s.drop j) = none := by
  intro s
  induction s with
  | nil =>
    intro i a h
    simp only [searchAux] at h
    cases ha : att [] with
    | none => rw [ha] at h; exact absurd h (by simp)
    | some b =>
      rw [ha] at h
      simp only [Option.some.injEq, Prod.mk.injEq] at h
      obtain ⟨hi, hb⟩ := h
      subst hi; subst hb
      exact ⟨ha, fun j hj => absurd hj (by omega)⟩
  | cons c cs ih =>
    intro i a h
    simp only [searchAux] at h
    cases ha : att (c :: cs) with
    | some b =>
      rw [ha] at h
      simp only [Option.some.injEq, Prod.mk.injEq] at h
      obtain ⟨hi, hb⟩ := h
      subst hi; subst hb
      exact ⟨ha, fun j hj => absurd hj (by omega)⟩
    | none =>
      rw [ha] at h
      cases hr : searchAux att cs with
      | none => rw [hr] at h; exact absurd h (by simp)
      | some p =>
        obtain ⟨i', a'⟩ := p
        rw [hr] at h
        simp only [Option.some.injEq, Prod.mk.injEq] at h
        obtain ⟨hi, hb⟩ := h
        subst hi; subst hb
        obtain ⟨h1, h2⟩ := ih hr
        refine ⟨h1, fun j hj => ?_⟩
        cases j with
        | zero => exact ha
        | succ j' => exact h2 j' (by omega)

theorem isPrefixCI_length {pat l : List Char} (h : isPrefixCI pat l = true) :
    pat.length ≤ l.length := by
  induction pat generalizing l with
  | nil => simp
  | cons p ps ih =>
    cases l with
    | nil => simp [isPrefixCI] at h
    | cons c cs =>
      simp only [isPrefixCI, Bool.and_eq_true] at h
      simpa [Nat.succ_le_succ_iff] using ih h.2

theorem findCI_sound {pat : List Char} :
    ∀ {l : List Char} {p : Nat}, findCI pat l = some p →
      isPrefixCI pat (l.drop p) = true ∧ p ≤ l.length := by
  intro l
  induction l with
  | nil =>
    intro p h
    simp only [findCI] at h
    split at h
    · simp only [Option.some.injEq] at h
      subst h
      exact ⟨by assumption, by simp⟩
    · exact absurd h (by simp)
  | cons c cs ih =>
    intro p h
    simp only [findCI] at h
    split at h
    · simp only [Option.some.injEq] at h
      subst h
      exact ⟨by assumption, by simp⟩
    · cases hr : findCI pat cs with
      | none => rw [hr] at h; exact absurd h (by simp)
      | some q =>
        rw [hr] at h
        simp only [Option.map_some', Option.some.injEq] at h
        subst h
        obtain ⟨h1, h2⟩ := ih hr
        exact ⟨h1, by simp; omega⟩

theorem matchCloseTagB_length {dlo dhi : Char} {l : List Char}
    (h : matchCloseTagB dlo dhi l = true) : 5 ≤ l.length := by
  unfold matchCloseTagB at h
  split at h
  · simp_all [List.length_cons]
  · exact absurd h (by simp)

theorem matchCloseTagB_append {dlo dhi : Char} {a b : List Char}
    (h : matchCloseTagB dlo dhi a = true) : matchCloseTagB dlo dhi (a ++ b) = true := by
  unfold matchCloseTagB at h ⊢
  cases a with
  | nil => simp [matchCloseTagB] at h
  | cons x1 t1 =>
    cases t1 with
    | nil => simp at h
    | cons x2 t2 =>
      cases t2 with
      | nil => simp at h
      | cons x3 t3 =>
        cases t3 with
        | nil => simp at h
        | cons x4 t4 =>
          cases t4 with
          | nil => simp at h
          | cons x5 t5 => simpa using h

theorem findClose_sound {dlo dhi : Char} :
    ∀ {l : List Char} {k : Nat}, findClose dlo dhi l = some k →
      matchCloseTagB dlo dhi (l.drop k) = true ∧ k + 5 ≤ l.length := by
  intro l
  induction l with
  | nil => intro k h; simp [findClose] at h
  | cons c cs ih =>
    intro k h
    simp only [findClose] at h
    split at h
    · simp only [Option.some.injEq] at h
      subst h
      refine ⟨by simpa using (by assumption), ?_⟩
      have := matchCloseTagB_length (by assumption : matchCloseTagB dlo dhi (c :: cs) = true)
      simpa using this
    · cases hr : findClose dlo dhi cs with
      | none => rw [hr] at h; exact absurd h (by simp)
      | some q =>
        rw [hr] at h
        simp only [Option.map_some', Option.some.injEq] at h
        subst h
        obtain ⟨h1, h2⟩ := ih hr
        exact ⟨by simpa using h1, by simp; omega⟩

theorem truncAtNl_length_le (l : List Char) : (truncAtNl l).length ≤ l.length := by
  have h := congrArg List.length
    (List.takeWhile_append_dropWhile (fun c => !(c == '\n')) l)
  simp only [List.length_append] at h
  unfold truncAtNl
  omega

theorem matchCloseTagB_truncAtNl {dlo dhi : Char} {l : List Char} {k : Nat}
    (h : matchCloseTagB dlo dhi ((truncAtNl l).drop k) = true) :
    matchCloseTagB dlo dhi (l.drop k) = true := by
  have hsplit : l = truncAtNl l ++ l.dropWhile (fun c => !(c == '\n')) :=
    (List.takeWhile_append_dropWhile _ l).symm
  have hlen : k + 5 ≤ (truncAtNl l).length := by
    have h5 := matchCloseTagB_length h
    simp only [List.length_drop] at h5
    omega
  calc matchCloseTagB dlo dhi (l.drop k)
      = matchCloseTagB dlo dhi
          ((truncAtNl l).drop k ++
            (l.dropWhile (fun c => !(c == '\n'))).drop (k - (truncAtNl l).length)) := by
        conv_lhs => rw [hsplit]
        rw [List.drop_append_eq_append_drop]
    _ = true := matchCloseTagB_append h

theorem headAtWith_sound {dlo dhi : Char} {T cs : List Char} {j g : Nat}
    (h : headAtWith dlo dhi T cs j = some g) :
    ∃ oe, matchOpenTag dlo dhi cs = some oe ∧
      ((cs.drop oe).take j).contains '<' = false ∧
      isPrefixCI T ((cs.drop oe).drop j) = true ∧
      g = oe + j + T.length + ltIdx ((cs.drop oe).drop (j + T.length)) + 5 ∧
      matchCloseTagB dlo dhi
        (cs.drop (oe + j + T.length + ltIdx ((cs.drop oe).drop (j + T.length)))) = true := by
  unfold headAtWith at h
  cases hm : matchOpenTag dlo dhi cs with
  | none => rw [hm] at h; exact absurd h (by simp)
  | some oe =>
    rw [hm] at h
    simp only at h
    split at h
    · exact absurd h (by simp)
    · split at h
      · split at h
        · simp only [Option.some.injEq] at h
          refine ⟨oe, rfl, by simp_all, by assumption, h.symm, ?_⟩
          have hc : matchCloseTagB dlo dhi
              (((cs.drop oe).drop (j + T.length)).drop
                (ltIdx ((cs.drop oe).drop (j + T.length)))) = true := by assumption
          rw [List.drop_drop, List.drop_drop] at hc
          have harith : oe + (j + T.length +
              ltIdx ((cs.drop oe).drop (j + T.length))) =
              oe + j + T.length + ltIdx ((cs.drop oe).drop (j + T.length)) := by omega
          rwa [harith] at hc
        · exact absurd h (by simp)
      · exact absurd h (by simp)

theorem tryDown_sound {dlo dhi : Char} {T cs : List Char} :
    ∀ {j g : Nat}, tryDown dlo dhi T cs j = some g →
      ∃ j', j' ≤ j ∧ headAtWith dlo dhi T cs j' = some g := by
  intro j
  induction j with
  | zero => intro g h; exact ⟨0, Nat.le_refl 0, h⟩
  | succ j' ih =>
    intro g h
    simp only [tryDown] at h
    cases hm : headAtWith dlo dhi T cs (j' + 1) with
    | some g' =>
      rw [hm] at h
      simp only [Option.some.injEq] at h
      subst h
      exact ⟨j' + 1, Nat.le_refl _, hm⟩
    | none =>
      rw [hm] at h
      obtain ⟨j'', hle, hh⟩ := ih h
      exact ⟨j'', by omega, hh⟩

theorem attemptCfgHead_sound {dlo dhi : Char} {T cs : List Char} {g : Nat}
    (h : attemptCfgHead dlo dhi T cs = some g) :
    ∃ j, headAtWith dlo dhi T cs j = some g := by
  unfold attemptCfgHead at h
  cases hm : matchOpenTag dlo dhi cs with
  | none => rw [hm] at h; exact absurd h (by simp)
  | some oe =>
    rw [hm] at h
    obtain ⟨j, _, hh⟩ := tryDown_sound h
    exact ⟨j, hh⟩

theorem headAtWith_close {dlo dhi : Char} {T cs : List Char} {j g : Nat}
    (h : headAtWith dlo dhi T cs j = some g) :
    5 ≤ g ∧ g ≤ cs.length ∧ matchCloseTagB dlo dhi (cs.drop (g - 5)) = true := by
  obtain ⟨oe, _, _, _, hg, hc⟩ := headAtWith_sound h
  have h5 : 5 ≤ g := by omega
  have hgm : g - 5 = oe + j + T.length + ltIdx ((cs.drop oe).drop (j + T.length)) := by omega
  rw [hgm]
  refine ⟨h5, ?_, hc⟩
  have hl := matchCloseTagB_length hc
  simp only [List.length_drop] at hl
  omega

theorem attemptCfgHead_close {dlo dhi : Char} {T cs : List Char} {g : Nat}
    (h : attemptCfgHead dlo dhi T cs = some g) :
    5 ≤ g ∧ g ≤ cs.length ∧ matchCloseTagB dlo dhi (cs.drop (g - 5)) = true := by
  obtain ⟨j, hh⟩ := attemptCfgHead_sound h
  exact headAtWith_close hh

theorem attemptLineHead_close {dlo dhi : Char} {W cs : List Char} {m : Nat}
    (h : attemptLineHead dlo dhi W cs = some m) :
    5 ≤ m ∧ m ≤ cs.length ∧ matchCloseTagB dlo dhi (cs.drop (m - 5)) = true := by
  unfold attemptLineHead at h
  split at h
  · exact absurd h (by simp)
  · rename_i oe hm
    split at h
    · exact absurd h (by simp)
    · rename_i p hp
      split at h
      · exact absurd h (by simp)
      · rename_i k hk
        simp only [Option.some.injEq] at h
        subst h
        obtain ⟨hcl, hkb⟩ := findClose_sound hk
        have hcl2 : matchCloseTagB dlo dhi
            (((cs.drop oe).drop (p + W.length)).drop k) = true :=
          matchCloseTagB_truncAtNl hcl
        rw [List.drop_drop, List.drop_drop] at hcl2
        refine ⟨by omega, ?_, ?_⟩
        · have hb : k + 5 ≤ ((cs.drop oe).drop (p + W.length)).length := by
            have := truncAtNl_length_le ((cs.drop oe).drop (p + W.length))
            omega
          simp only [List.length_drop] at hb
          omega
        · have harith : oe + p + W.length + k + 5 - 5 = oe + (p + W.length + k) := by omega
          rwa [harith]

theorem searchJournalCfg_sound {L D : List Char} {e : Nat}
    (h : searchJournalCfg L D = some e) :
    5 ≤ e ∧ e ≤ D.length ∧ matchCloseTagB '1' '6' (D.drop (e - 5)) = true := by
  unfold searchJournalCfg at h
  cases hs : searchAux (attemptCfgHead '1' '6' L) D with
  | none => rw [hs] at h; exact absurd h (by simp)
  | some r =>
    obtain ⟨i, m⟩ := r
    rw [hs] at h
    simp only [Option.map_some', Option.some.injEq] at h
    subst h
    obtain ⟨ha, _⟩ := searchAux_sound hs
    obtain ⟨h5, hle, hcl⟩ := attemptCfgHead_close ha
    simp only [List.length_drop] at hle
    rw [List.drop_drop] at hcl
    have harith : i + (m - 5) = i + m - 5 := by omega
    rw [harith] at hcl
    exact ⟨by omega, by omega, hcl⟩

theorem searchJournalDefault_sound {D : List Char} {e : Nat}
    (h : searchJournalDefault D = some e) :
    5 ≤ e ∧ e ≤ D.length ∧ matchCloseTagB '1' '3' (D.drop (e - 5)) = true := by
  unfold searchJournalDefault at h
  cases hs : searchAux (attemptLineHead '1' '3' ("Journal".data)) D with
  | none => rw [hs] at h; exact absurd h (by simp)
  | some r =>
    obtain ⟨i, m⟩ := r
    rw [hs] at h
    simp only [Option.map_some', Option.some.injEq] at h
    subst h
    obtain ⟨ha, _⟩ := searchAux_sound hs
    obtain ⟨h5, hle, hcl⟩ := attemptLineHead_close ha
    simp only [List.length_drop] at hle
    rw [List.drop_drop] at hcl
    have harith : i + (m - 5) = i + m - 5 := by omega
    rw [harith] at hcl
    exact ⟨by omega, by omega, hcl⟩

theorem searchCfgProj_inv {T D : List Char} {s a b : Nat}
    (h : searchCfgProj T D = some (s, a, b)) :
    ∃ g m, searchAux (attemptCfgProj T) D = some (s, (g, m)) ∧ a = s + g ∧ b = s + m := by
  cases hr : searchAux (attemptCfgProj T) D with
  | none => unfold searchCfgProj at h; rw [hr] at h; exact absurd h (by simp)
  | some r =>
    obtain ⟨i, g, m⟩ := r
    unfold searchCfgProj at h
    rw [hr] at h
    simp only [Option.some.injEq, Prod.mk.injEq] at h
    obtain ⟨hi, ha, hb⟩ := h
    exact ⟨g, m, by rw [hi], by omega, by omega⟩

theorem attemptCfgProj_inv {T cs : List Char} {g m : Nat}
    (h : attemptCfgProj T cs = some (g, m)) :
    attemptCfgHead '2' '4' T cs = some g ∧ m = g + lookEnd '1' '4' (cs.drop g) := by
  unfold attemptCfgProj at h
  split at h
  · exact absurd h (by simp)
  · rename_i g' hg
    simp only [Option.some.injEq, Prod.mk.injEq] at h
    obtain ⟨h1, h2⟩ := h
    subst h1
    exact ⟨hg, h2.symm⟩

theorem intercalate_cons_cons (s a b : List Char) (t : List (List Char)) :
    List.intercalate s (a :: b :: t) = a ++ s ++ List.intercalate s (b :: t) := by
  simp [List.intercalate, List.intersperse, List.flatten]

theorem intercalate_single (s a : List Char) : List.intercalate s [a] = a := by
  simp [List.intercalate, List.intersperse, List.flatten]

/-! ## Claim theorems -/

/-- **C1** — the claim fails on the code: upserting the same project a
second time with the configured variant does *not* replace the section
cleanly.  The replaced span ends at the lookahead `(?=<h[1-4]|$)`,
which fires on the `<h4>Executive Summary</h4>` heading of the
fragment inserted by the first call, so the first fragment's tail
survives and the Executive Summary block is duplicated.  This theorem
evaluates both calls at the failing input: after one upsert of `projT`
into the empty page the block occurs once, after the second upsert it
occurs twice. -/
theorem upsert_configured_twice_duplicates :
    countSub ("<h4>Executive Summary</h4>".data)
      (update_or_create_project_configured_body
        (update_or_create_project_configured_body [] projT.title
          (Project.to_confluence_html projT) [])
        projT.title (Project.to_confluence_html projT) []) = 2 ∧
    countSub ("<h4>Executive Summary</h4>".data)
      (update_or_create_project_configured_body [] projT.title
        (Project.to_confluence_html projT) []) = 1 := by decide

/-- **C2** — counterexample: in the default variant the lazy `.*?` of
`<h[2-3][^>]*>.*?T.*?</h[2-3]>` runs with `DOTALL` across tags, so a
title `T` occurring *only* inside a paragraph body selects a span
stretching from the `Foo` heading across the `Bar` heading, and the
replacement erases `Bar`'s body `<p>z</p>` — an unrelated sibling
section is altered although no heading contains the title. -/
theorem upsert_default_rewrites_unrelated_section :
    countSub ("<p>z</p>".data)
      (update_or_create_project_body docBodyTitle ("T".data) ("X".data)) = 0 ∧
    countSub ("<p>z</p>".data) docBodyTitle = 1 := by decide

/-- **C4** — journal-insertion fallback equation, each variant under its
own hypothesis alone: if the configured locator finds no heading for
the label `L`, the configured variant returns exactly
`entry_html ++ D`; and if the default locator finds no level-1–3
heading containing `Journal`, the default variant returns exactly
`entry_html ++ D` — in both cases `D` is unchanged as the suffix. -/
theorem journal_insertion_fallback (D eh L : List Char) :
    (searchJournalCfg L D = none →
      prepend_journal_entry_configured_body D eh L = eh ++ D) ∧
    (searchJournalDefault D = none →
      prepend_journal_entry_body D eh = eh ++ D) := by
  refine ⟨fun h1 => ?_, fun h2 => ?_⟩
  · simp [prepend_journal_entry_configured_body, h1]
  · simp [prepend_journal_entry_body, h2]

/-- Witness for `journal_insertion_fallback`, discharging each
variant's hypothesis at its own document: the configured variant on a
document that *does* contain a `Journal` heading but none matching the
label `Log`, and the default variant on a document with no heading. -/
theorem journal_insertion_fallback_witness :
    prepend_journal_entry_configured_body ("<h1>Journal</h1>".data) ("E".data) ("Log".data) =
      "E".data ++ "<h1>Journal</h1>".data ∧
    prepend_journal_entry_body ("<p>x</p>".data) ("E".data) =
      "E".data ++ "<p>x</p>".data :=
  ⟨(journal_insertion_fallback ("<h1>Journal</h1>".data) ("E".data) ("Log".data)).1
      (by decide),
   (journal_insertion_fallback ("<p>x</p>".data) ("E".data) ("Log".data)).2 (by decide)⟩

/-- **C7** — counterexample: creating `Widget` in the empty document
does *not* return `"<h2>Widget</h2>\n"` followed by the fragment; the
code appends `"\n<h2>Widget</h2>\n"`, i.e. a separator newline comes
first. -/
theorem create_widget_empty_doc_cex :
    update_or_create_project_body [] ("Widget".data)
        (Project.to_confluence_html projWidget) ≠
      "<h2>Widget</h2>\n".data ++ Project.to_confluence_html projWidget := by decide

/-- **C7 (amended)** — empty-document creation, both variants: the
result is exactly `"\n<h2>Widget</h2>\n"` followed by the rendered
fragment — as claimed except for the leading newline separator. -/
theorem create_widget_empty_doc (frag : List Char) :
    update_or_create_project_body [] ("Widget".data) frag =
      "\n<h2>Widget</h2>\n".data ++ frag ∧
    update_or_create_project_configured_body [] ("Widget".data) frag [] =
      "\n<h2>Widget</h2>\n".data ++ frag :=
  ⟨rfl, rfl⟩

/-- **C8** — classification fallback is total: a classification string
that is none of the four enum values parses to `EXPLORATORY`, and so
does an absent field; `parse_project_classification` is a total
function, so no exception can escape on account of the value. -/
theorem classification_fallback (s : List Char)
    (h1 : s ≠ "Moonshot".data) (h2 : s ≠ "Core".data)
    (h3 : s ≠ "Exploratory".data) (h4 : s ≠ "Maintenance".data) :
    parse_project_classification (some s) = ProjectClassification.EXPLORATORY ∧
    parse_project_classification none = ProjectClassification.EXPLORATORY := by
  refine ⟨?_, by decide⟩
  simp only [parse_project_classification, classificationOfString, Option.getD_some,
    if_neg h1, if_neg h2, if_neg h3, if_neg h4]
  rfl

/-- Witness for `classification_fallback` at the spec's example
string `"Urgent"`. -/
theorem classification_fallback_witness :
    parse_project_classification (some ("Urgent".data)) =
      ProjectClassification.EXPLORATORY ∧
    parse_project_classification none = ProjectClassification.EXPLORATORY :=
  classification_fallback ("Urgent".data) (by decide) (by decide) (by decide) (by decide)

/-- **C9** — counterexample: `list_existing_projects` compiles its
heading pattern *without* `DOTALL`, so a level-2 heading whose text
spans a newline is not enumerated at all, although the repository's
own heading extractor (`extract_headings`, which does pass `DOTALL`)
reports it and its text is not on the stop-list. -/
theorem list_existing_projects_misses_multiline :
    list_existing_projects_body ("<h2>A\nB</h2>".data) = [] ∧
    extract_headings_body ("<h2>A\nB</h2>".data) = [(2, "A\nB".data)] :=
  ⟨by decide, by decide⟩

/-- **C10** — counterexample: the image block does not end with a
newline, so when an image is present the rendered project separates
the image block from the status block by a single `"\n"`, not a blank
line; with three blocks present only one `"\n\n"` separation occurs
instead of the two the claim requires. -/
theorem render_image_separator_cex :
    Project.to_confluence_html projImg =
      imageBlockHtml ("u".data) ++ ("\n".data ++
        (statusBlockHtml projImg ++ ("\n".data ++ execBlockHtml projImg))) ∧
    countSub ("\n\n".data) (Project.to_confluence_html projImg) = 1 := by
  exact ⟨rfl, by decide⟩

/-- **C2 (amended)** — heading-scoped frame property of the *configured*
variant: when the title search matches at `(s, g1e, e)`, the output is
`D[:s] ++ D[s:g1e] ++ "\n" ++ fragment ++ D[e:]` — everything outside
`[g1e, e)` other than the inserted separator and fragment is
byte-for-byte unchanged and the matched heading span `D[s:g1e]` is kept
verbatim — and the match is genuinely heading-scoped: the title occurs
inside the `<`-free inner text of an `h2`–`h4` heading
(`cfgHeadingMatchAt`), so a title occurring only inside paragraph
bodies never selects a span.  When nothing matches, the call performs
a single insertion (under a candidate heading or at the end), leaving
`D` intact around the insertion point. -/
theorem upsert_configured_frame (D T html : List Char) (labels : List (List Char)) :
    (∀ s g1e e, searchCfgProj T D = some (s, g1e, e) →
      update_or_create_project_configured_body D T html labels =
        D.take s ++ ((D.drop s).take (g1e - s) ++ ("\n".data ++ (html ++ D.drop e))) ∧
      cfgHeadingMatchAt '2' '4' T D s (g1e - s)) ∧
    (searchCfgProj T D = none →
      (∃ ip, update_or_create_project_configured_body D T html labels =
        D.take ip ++ ("\n<h3>".data ++ (T ++ ("</h3>\n".data ++ (html ++ D.drop ip))))) ∨
      update_or_create_project_configured_body D T html labels =
        D ++ ("\n<h2>".data ++ (T ++ ("</h2>\n".data ++ html)))) := by
  constructor
  · intro s g1e e h
    constructor
    · simp only [update_or_create_project_configured_body, h]
    · obtain ⟨g, m, hs, ha, hb⟩ := searchCfgProj_inv h
      obtain ⟨hatt, _⟩ := searchAux_sound hs
      obtain ⟨hhead, _⟩ := attemptCfgProj_inv hatt
      obtain ⟨j, hj⟩ := attemptCfgHead_sound hhead
      have hg : g1e - s = g := by omega
      rw [hg]
      exact ⟨j, hj⟩
  · intro h
    simp only [update_or_create_project_configured_body, h]
    cases hip : firstCandidatePos labels D with
    | some ip => exact Or.inl ⟨ip, by simp only [hip]⟩
    | none => exact Or.inr (by simp only [hip])

/-- Witness for `upsert_configured_frame` at a two-section document. -/
theorem upsert_configured_frame_witness :
    update_or_create_project_configured_body ("<h2>Apollo</h2><p>b</p>".data)
        ("Apollo".data) ("X".data) [] =
      ("<h2>Apollo</h2><p>b</p>".data).take 0 ++
        ((("<h2>Apollo</h2><p>b</p>".data).drop 0).take (15 - 0) ++
          ("\n".data ++ ("X".data ++ ("<h2>Apollo</h2><p>b</p>".data).drop 23))) ∧
    cfgHeadingMatchAt '2' '4' ("Apollo".data) ("<h2>Apollo</h2><p>b</p>".data) 0 (15 - 0) :=
  (upsert_configured_frame ("<h2>Apollo</h2><p>b</p>".data) ("Apollo".data)
    ("X".data) []).1 0 15 23 (by decide)

/-- **C3** — journal insertion is a pure splice, for both variants: when
the locator returns a match end `e`, the result is exactly
`D[:e] ++ "\n" ++ entry_html ++ D[e:]`; moreover `e` lies at the end of
the matched heading's closing tag (`</h·>` occupies `D[e-5:e]`), so the
prefix up to the closing tag and the whole suffix are byte-for-byte
unchanged. -/
theorem journal_insertion_pure_splice (D eh L : List Char) :
    (∀ e, searchJournalCfg L D = some e →
      prepend_journal_entry_configured_body D eh L =
        D.take e ++ ("\n".data ++ (eh ++ D.drop e)) ∧
      5 ≤ e ∧ e ≤ D.length ∧ matchCloseTagB '1' '6' (D.drop (e - 5)) = true) ∧
    (∀ e, searchJournalDefault D = some e →
      prepend_journal_entry_body D eh =
        D.take e ++ ("\n".data ++ (eh ++ D.drop e)) ∧
      5 ≤ e ∧ e ≤ D.length ∧ matchCloseTagB '1' '3' (D.drop (e - 5)) = true) := by
  constructor
  · intro e h
    obtain ⟨h5, hle, hcl⟩ := searchJournalCfg_sound h
    exact ⟨by simp only [prepend_journal_entry_configured_body, h], h5, hle, hcl⟩
  · intro e h
    obtain ⟨h5, hle, hcl⟩ := searchJournalDefault_sound h
    exact ⟨by simp only [prepend_journal_entry_body, h], h5, hle, hcl⟩

/-- Witness for `journal_insertion_pure_splice` at the spec's
`<h1>Journal</h1><p>old</p>` scenario (both variants match at 16). -/
theorem journal_insertion_pure_splice_witness :
    (prepend_journal_entry_configured_body ("<h1>Journal</h1><p>old</p>".data)
        ("E".data) ("Journal".data) =
      ("<h1>Journal</h1><p>old</p>".data).take 16 ++
        ("\n".data ++ ("E".data ++ ("<h1>Journal</h1><p>old</p>".data).drop 16)) ∧
      5 ≤ 16 ∧ 16 ≤ ("<h1>Journal</h1><p>old</p>".data).length ∧
      matchCloseTagB '1' '6' (("<h1>Journal</h1><p>old</p>".data).drop (16 - 5)) = true) ∧
    (prepend_journal_entry_body ("<h1>Journal</h1><p>old</p>".data) ("E".data) =
      ("<h1>Journal</h1><p>old</p>".data).take 16 ++
        ("\n".data ++ ("E".data ++ ("<h1>Journal</h1><p>old</p>".data).drop 16)) ∧
      5 ≤ 16 ∧ 16 ≤ ("<h1>Journal</h1><p>old</p>".data).length ∧
      matchCloseTagB '1' '3' (("<h1>Journal</h1><p>old</p>".data).drop (16 - 5)) = true) :=
  ⟨(journal_insertion_pure_splice ("<h1>Journal</h1><p>old</p>".data) ("E".data)
      ("Journal".data)).1 16 (by decide),
   (journal_insertion_pure_splice ("<h1>Journal</h1><p>old</p>".data) ("E".data)
      ("Journal".data)).2 16 (by decide)⟩

/-- **C5** — counterexample: the locator does *not* operate on the
rendered (markup-stripped) heading text.  In `docMarkedUp` the first
heading's stripped text is exactly `MOONBASE Alpha`, which contains the
label case-insensitively, yet the configured search skips it (the
`[^<]*` runs cannot cross the inner `<em>` tags) and matches the second
heading, at offset 32. -/
theorem searchCfgProj_skips_marked_up_heading :
    searchCfgProj ("moonbase alpha".data) docMarkedUp = some (32, 59, 59) ∧
    containsCI ("moonbase alpha".data) (stripTags (docMarkedUp.take 32)) = true := by decide

/-- **C5 (amended)** — the locator is first-match in document order and
case-insensitive on the heading's markup-free inner text: whenever the
configured project search returns `(s, g1e, e)`, no earlier offset
admits a match, and at `s` an `h2`–`h4` open tag is followed (within a
`<`-free run) by a case-insensitive occurrence of the title. -/
theorem searchCfgProj_first_match (T D : List Char) :
    ∀ s g1e e, searchCfgProj T D = some (s, g1e, e) →
      (∀ q, q < s → attemptCfgProj T (D.drop q) = none) ∧
      ∃ j oe, matchOpenTag '2' '4' (D.drop s) = some oe ∧
        (((D.drop s).drop oe).take j).contains '<' = false ∧
        isPrefixCI T (((D.drop s).drop oe).drop j) = true := by
  intro s g1e e h
  obtain ⟨g, m, hs, ha, hb⟩ := searchCfgProj_inv h
  obtain ⟨hatt, hnone⟩ := searchAux_sound hs
  obtain ⟨hhead, _⟩ := attemptCfgProj_inv hatt
  obtain ⟨j, hj⟩ := attemptCfgHead_sound hhead
  obtain ⟨oe, hoe, hlt, hpre, _, _⟩ := headAtWith_sound hj
  exact ⟨hnone, j, oe, hoe, hlt, hpre⟩

/-- Witness for `searchCfgProj_first_match`, demonstrating the claimed
case-insensitivity: the heading `<h2>MOONBASE Alpha</h2>` matches the
title `moonbase alpha` at offset 0. -/
theorem searchCfgProj_first_match_witness :
    (∀ q, q < 0 →
      attemptCfgProj ("moonbase alpha".data)
        (("<h2>MOONBASE Alpha</h2><p>x</p>".data).drop q) = none) ∧
    ∃ j oe, matchOpenTag '2' '4' (("<h2>MOONBASE Alpha</h2><p>x</p>".data).drop 0) = some oe ∧
      (((("<h2>MOONBASE Alpha</h2><p>x</p>".data).drop 0).drop oe).take j).contains '<' = false ∧
      isPrefixCI ("moonbase alpha".data)
        (((("<h2>MOONBASE Alpha</h2><p>x</p>".data).drop 0).drop oe).drop j) = true :=
  searchCfgProj_first_match ("moonbase alpha".data)
    ("<h2>MOONBASE Alpha</h2><p>x</p>".data) 0 23 31 (by decide)

/-- **C6** — replacement preserves the heading and leaves siblings
byte-identical: for any project titled `Apollo`, upserting into the
scenario document keeps `<h2>Apollo</h2>` verbatim, replaces only the
content strictly between it and the next heading with
`"\n"` + fragment, and reproduces `<h2>Other</h2><p>untouched</p>`
byte-for-byte as the suffix. -/
theorem upsert_apollo_preserves_siblings (p : Project) (h : p.title = "Apollo".data) :
    update_or_create_project_body docApollo p.title (Project.to_confluence_html p) =
      "<h2>Apollo</h2>\n".data ++
        (Project.to_confluence_html p ++ "<h2>Other</h2><p>untouched</p>".data) := by
  rw [h]
  have hs : searchProjDefault ("Apollo".data) docApollo = some (0, 15, 32) := by decide
  simp only [update_or_create_project_body, hs]
  rfl

/-- Witness for `upsert_apollo_preserves_siblings` at the concrete
project `projApollo`. -/
theorem upsert_apollo_preserves_siblings_witness :
    update_or_create_project_body docApollo projApollo.title
        (Project.to_confluence_html projApollo) =
      "<h2>Apollo</h2>\n".data ++
        (Project.to_confluence_html projApollo ++ "<h2>Other</h2><p>untouched</p>".data) :=
  upsert_apollo_preserves_siblings projApollo (by decide)

/-- **C9 (amended)** — the enumeration loop of `list_existing_projects`
equals, for every document, the ordered list of cleaned (tag-stripped,
trimmed) texts of the single-line level-2/3 heading matches, filtered
by the lowercased stop-list; duplicates are kept and document order is
preserved, since `List.map` and `List.filter` are order- and
multiplicity-preserving. -/
theorem list_existing_projects_eq_filter_map (D : List Char) :
    list_existing_projects_body D =
      ((findallH23 D).map (fun m => trimWs (stripTags m))).filter
        (fun t => !(excludedHeadings.contains (lowerL t))) := by
  unfold list_existing_projects_body
  have h : ∀ (ms : List (List Char)) (acc : List (List Char)),
      ms.foldl
        (fun acc m =>
          let clean := trimWs (stripTags m)
          if excludedHeadings.contains (lowerL clean) then acc else acc ++ [clean])
        acc =
      acc ++ (ms.map (fun m => trimWs (stripTags m))).filter
        (fun t => !(excludedHeadings.contains (lowerL t))) := by
    intro ms
    induction ms with
    | nil => intro acc; simp
    | cons m t ih =>
      intro acc
      simp only [List.foldl_cons, List.map_cons, List.filter_cons]
      rw [ih]
      cases hc : excludedHeadings.contains (lowerL (trimWs (stripTags m))) with
      | true =>
        simp only [hc, Bool.not_true, if_true, if_false, eq_self_iff_true,
          Bool.false_eq_true]
      | false =>
        simp only [hc, Bool.not_false, if_true, if_false, eq_self_iff_true,
          Bool.false_eq_true, List.append_assoc, List.singleton_append]
  simpa using h (findallH23 D) []

/-- **C10 (amended)** — rendering normal form: for every project the
rendered fragment is exactly the optional image block (followed by a
single `"\n"` separator — the image block itself ends with no
newline), then the always-present status block, a `"\n"` separator,
the always-present Executive Summary block, and the optional
Prototypes and Supporting-Work blocks each preceded by a `"\n"`
separator; an optional block is present exactly when its field is a
non-empty string.  Since every block except the image block ends with
`"\n"`, consecutive *text* blocks are separated by one blank line. -/
theorem to_confluence_html_blocks (t : List Char) (c : ProjectClassification)
    (st ns es : List Char) (pr sw iu : Option (List Char)) :
    Project.to_confluence_html ⟨t, c, st, ns, es, pr, sw, iu⟩ =
      (match iu with
       | some u => if u.isEmpty then [] else imageBlockHtml u ++ "\n".data
       | none => []) ++
      (statusBlockHtml ⟨t, c, st, ns, es, pr, sw, iu⟩ ++
        ("\n".data ++ (execBlockHtml ⟨t, c, st, ns, es, pr, sw, iu⟩ ++
        ((match pr with
          | some x => if x.isEmpty then [] else "\n".data ++ protoBlockHtml x
          | none => []) ++
         (match sw with
          | some x => if x.isEmpty then [] else "\n".data ++ suppBlockHtml x
          | none => []))))) := by
  rcases iu with _ | u <;> rcases pr with _ | a <;> rcases sw with _ | b <;>
    simp only [Project.to_confluence_html] <;>
    (try split_ifs) <;>
    simp_all [intercalate_cons_cons, intercalate_single, List.append_assoc]

end Jarvis
